import Mathlib

/-!
Verification of `bborbe/git-version-bumper` (`main.go`) against its
natural-language specification.

Documents, messages and paths are modelled as `List Char` (Go strings for the
ASCII fragment these claims exercise).  Machine integers are modelled as
unbounded `Int`/`Nat` carrying the explicit 64-bit bounds checks that
`strconv` performs (`strconv.IntSize = 64` on the platforms this tool
targets), so `Atoi`'s `ErrRange` path is part of the model.
-/

set_option maxRecDepth 100000

namespace GitVersionBumper

instance {α β : Type} [DecidableEq α] [DecidableEq β] : DecidableEq (Except α β) := fun a b =>
  match a, b with
  | .error e, .error f => decidable_of_iff (e = f) (by simp)
  | .ok x, .ok y => decidable_of_iff (x = y) (by simp)
  | .error _, .ok _ => isFalse (by simp)
  | .ok _, .error _ => isFalse (by simp)

/-- ASCII decimal digit test (`'0'`..`'9'`). -/
def isDig (c : Char) : Bool := 48 ≤ c.toNat && c.toNat ≤ 57

/-- Numeric value of a digit string, most significant digit first.
Matches the accumulator loop of Go's `strconv.Atoi` on an all-digit input. -/
def digitsVal (l : List Char) : Nat :=
  l.foldl (fun a c => 10 * a + (c.toNat - 48)) 0

/-- The two error kinds `strconv.Atoi` can report inside its `*NumError`:
`errSyn` models `strconv.ErrSyntax`, `errRange` models `strconv.ErrRange`. -/
inductive AtoiErr where
  | errSyn
  | errRange
deriving DecidableEq, Repr

/-- Largest `uint64`, the `maxVal` of `ParseUint(s, 10, 64)`. -/
def uint64Max : Nat := 18446744073709551615

/-- The `cutoff` of `ParseUint` for base 10: `maxUint64/10 + 1`; once the
accumulator reaches it, multiplying by 10 must overflow. -/
def uint64Cutoff : Nat := 1844674407370955162

/-- Magnitude of the smallest `int64`, i.e. `2^63`: the `cutoff` of
`ParseInt`'s own range check. -/
def int64Cutoff : Nat := 9223372036854775808

/-- The digit-accumulation loop of `strconv.ParseUint(s, 10, 64)`: scanning
left to right, a non-digit is a syntax error at once, and the overflow checks
(accumulator at `cutoff` before the multiply, or above `maxVal` after the
add) report a range error at once - so whether a malformed huge input gets
`ErrSyntax` or `ErrRange` depends on which check fires first, exactly as in
Go. -/
def parseUintLoop : Nat → List Char → Except AtoiErr Nat
  | n, [] => .ok n
  | n, c :: rest =>
    if isDig c = true then
      if n ≥ uint64Cutoff then .error .errRange
      else if 10 * n + (c.toNat - 48) > uint64Max then .error .errRange
      else parseUintLoop (10 * n + (c.toNat - 48)) rest
    else .error .errSyn

/-- The sign/range wrapper of `strconv.ParseInt(s, 10, 0)` on a 64-bit
platform: a `ParseUint` range overflow stays a range error (the clamped
`maxVal` is above any `int64` cutoff), a nonnegative result must stay below
`2^63` and a negated one must not exceed `2^63`. -/
def parseIntResult (neg : Bool) : Except AtoiErr Nat → Except AtoiErr Int
  | .error e => .error e
  | .ok un =>
    if neg = false ∧ un ≥ int64Cutoff then .error .errRange
    else if neg = true ∧ un > int64Cutoff then .error .errRange
    else .ok (if neg then -(Int.ofNat un) else Int.ofNat un)

/-- Model of `strconv.Atoi` from the Go standard library, as used by
`ParseVersion` (`main.go` lines 162-173): an optional single sign followed by
at least one decimal digit whose value fits a 64-bit `int`; a malformed input
is an `ErrSyntax` failure and an out-of-range one an `ErrRange` failure, both
propagated by `ParseVersion`. -/
def atoi (l : List Char) : Except AtoiErr Int :=
  if l.head? = some '+' then
    if l.tail = [] then .error .errSyn
    else parseIntResult false (parseUintLoop 0 l.tail)
  else if l.head? = some '-' then
    if l.tail = [] then .error .errSyn
    else parseIntResult true (parseUintLoop 0 l.tail)
  else if l = [] then .error .errSyn
  else parseIntResult false (parseUintLoop 0 l)

/-- Go `strings.Split` specialised to the separator `"."`
(`main.go` line 157).  `splitDot [] = [[]]`, matching `strings.Split("", ".")`. -/
def splitDot : List Char → List (List Char)
  | [] => [[]]
  | c :: rest =>
    match splitDot rest with
    | [] => [[c]]
    | p :: ps => if c = '.' then [] :: p :: ps else (c :: p) :: ps

/-- The `Version` struct (`main.go` lines 177-181); Go `int` modelled as `Int`. -/
structure Version where
  major : Int
  minor : Int
  patch : Int
deriving DecidableEq, Repr

/-- Decimal digits of a natural number, fuel-indexed so that the kernel can
evaluate it; `natDigits` below supplies sufficient fuel. -/
def natDigitsCore : Nat → Nat → List Char
  | 0, _ => []
  | fuel + 1, n =>
    if n < 10 then [Char.ofNat (48 + n)]
    else natDigitsCore fuel (n / 10) ++ [Char.ofNat (48 + n % 10)]

/-- Decimal digits of a natural number, as produced by Go's `%d` verb. -/
def natDigits (n : Nat) : List Char := natDigitsCore (n + 1) n

/-- Go `fmt.Sprintf("%d", i)` for an `int`. -/
def intRepr (i : Int) : List Char :=
  if i < 0 then '-' :: natDigits i.natAbs else natDigits i.toNat

/-- Model of `Version.String` (`main.go` lines 183-185): `fmt.Sprintf("%d.%d.%d", ...)`. -/
def versionString (v : Version) : List Char :=
  intRepr v.major ++ '.' :: intRepr v.minor ++ '.' :: intRepr v.patch

/-- The errors `ParseVersion` can return: its own `errors.New` message, or a
`strconv.Atoi` failure on one part (Go's `*strconv.NumError`, carrying the
offending input and the error kind). -/
inductive ParseError where
  | formatError
  | atoiError (part : List Char) (e : AtoiErr)
deriving DecidableEq, Repr

/-- Rendering of a `ParseError` as by Go, matching the Go error strings. -/
def renderParseError : ParseError → List Char
  | .formatError => ("expect version in format 1.2.3").data
  | .atoiError part .errSyn =>
      ("strconv.Atoi: parsing \"").data ++ part ++ ("\": invalid syntax").data
  | .atoiError part .errRange =>
      ("strconv.Atoi: parsing \"").data ++ part ++ ("\": value out of range").data

/-- Model of `ParseVersion` (`main.go` lines 155-175): split on `.`, demand exactly
three parts, `Atoi` each part in order, returning the first failure. -/
def ParseVersion (s : List Char) : Except ParseError Version :=
  match splitDot s with
  | [p0, p1, p2] =>
    match atoi p0 with
    | .error e => .error (.atoiError p0 e)
    | .ok a =>
      match atoi p1 with
      | .error e => .error (.atoiError p1 e)
      | .ok b =>
        match atoi p2 with
        | .error e => .error (.atoiError p2 e)
        | .ok c => .ok ⟨a, b, c⟩
  | _ => .error .formatError

example : ParseVersion ("1.2.3").data = .ok ⟨1, 2, 3⟩ := by decide
example : ParseVersion ("1.2").data = .error .formatError := by decide
example : ParseVersion ("1.2.3.4").data = .error .formatError := by decide
example : ParseVersion ("1.x.3").data = .error (.atoiError ['x'] .errSyn) := by decide
example : ParseVersion ("-1.007.3").data = .ok ⟨-1, 7, 3⟩ := by decide
example : versionString ⟨1, 2, 3⟩ = ("1.2.3").data := by decide
example : versionString ⟨-1, 0, 3⟩ = ("-1.0.3").data := by decide
example : atoi ("9223372036854775807").data = .ok 9223372036854775807 := by decide
example : atoi ("9223372036854775808").data = .error .errRange := by decide
example : atoi ("-9223372036854775808").data = .ok (-9223372036854775808) := by decide
example : atoi ("-9223372036854775809").data = .error .errRange := by decide
example : atoi ("99999999999999999999x").data = .error .errRange := by decide
example : atoi ("999x").data = .error .errSyn := by decide

/-! ## Changelog insertion

`main.go` line 117 rewrites the changelog with

  `re.ReplaceAll(changelog, []byte(fmt.Sprintf("$1\n## %s\n\n- %s\n$2", version.String(), a.Message)))`

where `re = regexp.MustCompile("(?s)^(.*?)(\n##\\s.*)$")` (line 187).
With `(?s)` and no `(?m)`, `^`/`$` anchor at the start/end of the whole text,
so the pattern matches iff the text contains a newline immediately followed by
`##` and a whitespace character; the lazy `(.*?)` makes group 2 start at the
FIRST such newline, and the single match covers the whole text.
`ReplaceAll` interprets `$` signs in the replacement as in `Regexp.Expand` -
including any `$` signs contributed by the message - which is modelled by
`expandT` below. -/

/-- RE2's `\s` character class: `[\t\n\f\r ]`. -/
def isSpaceRe (c : Char) : Bool :=
  c = '\t' || c = '\n' || c = '\x0c' || c = '\r' || c = ' '

/-- Does the text begin with the boundary pattern `\n##\s`? -/
def boundaryHead (l : List Char) : Bool :=
  match l with
  | c0 :: c1 :: c2 :: c3 :: _ => c0 = '\n' && c1 = '#' && c2 = '#' && isSpaceRe c3
  | _ => false

/-- Index of the first occurrence of the boundary pattern `\n##\s`, i.e. where
the lazy group 1 of the pattern ends and group 2 begins; `none` when the
pattern does not match the text. -/
def findBoundary : List Char → Option Nat
  | [] => none
  | c :: rest =>
    if boundaryHead (c :: rest) then some 0
    else (findBoundary rest).map (· + 1)

/-- The function `boundaryHead` inspects only the first four characters. -/
theorem boundaryHead_take4 (l : List Char) : boundaryHead l = boundaryHead (l.take 4) := by
  rcases l with _ | ⟨a, _ | ⟨b, _ | ⟨c, _ | ⟨d, rest⟩⟩⟩⟩ <;> rfl

theorem findBoundary_cons (c : Char) (rest : List Char) :
    findBoundary (c :: rest) =
      if boundaryHead (c :: rest) = true then some 0
      else (findBoundary rest).map (· + 1) := rfl

/-- The function `findBoundary` returns an index where the boundary pattern occurs, and no
smaller index carries it: the split point is the FIRST boundary. -/
theorem findBoundary_spec {l : List Char} {i : Nat} (h : findBoundary l = some i) :
    boundaryHead (l.drop i) = true ∧ ∀ j, j < i → boundaryHead (l.drop j) = false := by
  induction l generalizing i with
  | nil => simp [findBoundary] at h
  | cons c rest ih =>
    by_cases hb : boundaryHead (c :: rest) = true
    · rw [findBoundary_cons, if_pos hb] at h
      injection h with h'
      subst h'
      exact ⟨by simpa using hb, fun j hj => absurd hj (Nat.not_lt_zero j)⟩
    · rw [findBoundary_cons, if_neg hb] at h
      obtain ⟨i', hi', rfl⟩ := Option.map_eq_some'.mp h
      obtain ⟨h1, h2⟩ := ih hi'
      refine ⟨h1, fun j hj => ?_⟩
      cases j with
      | zero => simpa using (Bool.not_eq_true _).mp hb
      | succ j' => exact h2 j' (by omega)

/-- If no suffix of the text starts with the boundary pattern, the pattern of
`re` does not match and `findBoundary` reports `none`. -/
theorem findBoundary_none {l : List Char} (h : ∀ j, boundaryHead (l.drop j) = false) :
    findBoundary l = none := by
  induction l with
  | nil => rfl
  | cons c rest ih =>
    rw [findBoundary_cons, if_neg (by simpa using h 0)]
    have : findBoundary rest = none := ih fun j => by simpa using h (j + 1)
    simp [this]

/-- Decidable check that no suffix starting inside `P` begins with the
boundary pattern, where `Q` is the 4-character lookahead of what follows `P`. -/
def noBoundaryWithin (P Q : List Char) : Bool :=
  (List.range P.length).all fun j => ! boundaryHead ((P ++ Q).drop j)

/-- Decidable check that the text contains the boundary pattern nowhere. -/
def anyBoundary (l : List Char) : Bool :=
  (List.range l.length).any fun j => boundaryHead (l.drop j)

theorem boundaryHead_drop_of_anyBoundary {l : List Char} (h : anyBoundary l = false) :
    ∀ j, boundaryHead (l.drop j) = false := by
  intro j
  by_cases hj : j < l.length
  · have := List.any_eq_false.mp h j (List.mem_range.mpr hj)
    simpa using this
  · rw [List.drop_eq_nil_of_le (by omega)]; rfl

theorem findBoundary_append_aux (P : List Char) {X : List Char}
    (hX : boundaryHead X = true) :
    (∀ j, j < P.length → boundaryHead ((P ++ X).drop j) = false) →
    findBoundary (P ++ X) = some P.length := by
  induction P with
  | nil =>
    intro _
    rcases hl : X with _ | ⟨c, rest⟩
    · rw [hl] at hX; simp [boundaryHead] at hX
    · rw [hl] at hX
      subst hl
      rw [List.nil_append, findBoundary_cons, if_pos hX]
      rfl
  | cons c P' ih =>
    intro hP'
    rw [List.cons_append, findBoundary_cons,
      if_neg (by simpa using hP' 0 (by simp))]
    have := ih fun j hj => by simpa using hP' (j + 1) (by simpa using hj)
    simp [this]

/-- The first boundary of `P ++ X` is at `P.length` provided `X` starts with
the boundary pattern and no boundary starts inside `P`; the latter is checked
against only the four characters of `X` the window can see. -/
theorem findBoundary_append {P X : List Char}
    (hP : noBoundaryWithin P (X.take 4) = true)
    (hX : boundaryHead X = true) :
    findBoundary (P ++ X) = some P.length := by
  refine findBoundary_append_aux P hX fun j hj => ?_
  have hmem := List.all_eq_true.mp hP j (List.mem_range.mpr hj)
  have hfalse : boundaryHead ((P ++ X.take 4).drop j) = false := by simpa using hmem
  have hj0 : j - P.length = 0 := by omega
  have heq : boundaryHead ((P ++ X).drop j) = boundaryHead ((P ++ X.take 4).drop j) := by
    rw [boundaryHead_take4, boundaryHead_take4 ((P ++ X.take 4).drop j)]
    congr 1
    rw [List.drop_append_eq_append_drop, List.drop_append_eq_append_drop, hj0]
    simp only [List.drop_zero]
    rw [List.take_append_eq_append_take, List.take_append_eq_append_take, List.take_take]
    congr 1
    have hmin : min (4 - (List.drop j P).length) 4 = 4 - (List.drop j P).length := by omega
    rw [hmin]
  rw [heq, hfalse]

/-- The three capture strings of a match of `(?s)^(.*?)(\n##\s.*)$`:
`g0` the whole text, `g1` the prefix, `g2` the remainder. -/
structure Groups where
  g0 : List Char
  g1 : List Char
  g2 : List Char

/-- Capture-name character, `regexp.extract`: Go uses `unicode.IsLetter`,
`unicode.IsDigit` and `'_'`; modelled for the ASCII fragment (the only
characters the claims involve). -/
def wordChar (c : Char) : Bool := c.isAlpha || c.isDigit || c = '_'

/-- Longest `wordChar` prefix of a text together with the rest. -/
def takeName : List Char → List Char × List Char
  | [] => ([], [])
  | c :: rest =>
    if wordChar c then
      let p := takeName rest
      (c :: p.1, p.2)
    else ([], c :: rest)

/-- Model of `regexp.extract`: parse a `$name` or `$\x7bname\x7d` reference right after a
`$`; returns the name and the rest of the template, or `none` if malformed. -/
def extract (l : List Char) : Option (List Char × List Char) :=
  if l.head? = some '\x7b' then
    let p := takeName l.tail
    if p.1 = [] then none
    else if p.2.head? = some '\x7d' then some (p.1, p.2.tail) else none
  else
    let p := takeName l
    if p.1 = [] then none else some p

/-- Numeric interpretation of a capture name in `regexp.extract`: all digits,
value below 10^8 while scanning (hence at most 9 digits), and no leading zero
unless the name is exactly `0`. Non-numeric names refer to named groups. -/
def nameNum (name : List Char) : Option Nat :=
  if name.all isDig = true ∧ name.length ≤ 9 ∧ (name.head? = some '0' → name.length = 1)
  then some (digitsVal name) else none

/-- The text a `$name` reference expands to: groups 0-2 exist, any other
numeric index is out of range and expands to nothing, and the pattern declares
no named groups, so any named reference also expands to nothing. -/
def groupFor (g : Groups) (name : List Char) : List Char :=
  match nameNum name with
  | some 0 => g.g0
  | some 1 => g.g1
  | some 2 => g.g2
  | some _ => []
  | none => []

/-- Model of `Regexp.expand` applied to the replacement template, fuel-indexed so the
kernel can evaluate it (`expandT` supplies sufficient fuel): `$$` is a literal
`$`, a well-formed `$name` is replaced by its capture, a malformed `$` is kept
verbatim, and all other characters are copied. -/
def expandTCore (g : Groups) : Nat → List Char → List Char
  | 0, t => t
  | _ + 1, [] => []
  | fuel + 1, c :: rest =>
    if c = '$' then
      if rest.head? = some '$' then '$' :: expandTCore g fuel rest.tail
      else
        match extract rest with
        | none => '$' :: expandTCore g fuel rest
        | some (name, rest2) => groupFor g name ++ expandTCore g fuel rest2
    else c :: expandTCore g fuel rest

/-- Model of `Regexp.expand` of a replacement template against a match `g`. -/
def expandT (g : Groups) (t : List Char) : List Char := expandTCore g t.length t

/-- The replacement template built at `main.go` line 117:
`fmt.Sprintf("$1\n## %s\n\n- %s\n$2", version.String(), a.Message)`. -/
def template (v : Version) (msg : List Char) : List Char :=
  '$' :: '1' :: (("\n## ").data ++ versionString v ++ ("\n\n- ").data ++ msg
    ++ '\n' :: '$' :: '2' :: [])

/-- The changelog update step of `App.Run` (`main.go` line 117):
`re.ReplaceAll` of the document against the replacement template.  When the
pattern does not match, `ReplaceAll` returns the document unchanged; when it
matches (the whole document, split at the first `\n##\s` boundary), the result
is the expansion of the template against the capture groups. -/
def insertEntry (doc : List Char) (v : Version) (msg : List Char) : List Char :=
  match findBoundary doc with
  | none => doc
  | some i => expandT ⟨doc, doc.take i, doc.drop i⟩ (template v msg)

/-- The `changelogFilename` constant (`main.go` line 189). -/
def changelogFilename : List Char := ("CHANGELOG.md").data

/-- The preamble of the default changelog template: everything up to (and
including) the newline that closes the `* PATCH ...` line; the first `\n##\s`
boundary of the template starts right after it. -/
def defaultPreamble : List Char :=
  ("# Changelog\n\nAll notable changes to this project will be documented in this file.\n\nPlease choose versions by [Semantic Versioning](http://semver.org/).\n\n* MAJOR version when you make incompatible API changes,\n* MINOR version when you add functionality in a backwards-compatible manner, and\n* PATCH version when you make backwards-compatible bug fixes.\n").data

/-- The pre-existing `## 1.0.0` section of the default changelog template,
with its leading blank-line separator. -/
def defaultFirstSection : List Char := ("\n## 1.0.0\n\n- Initial Version\n").data

/-- The `defaultChangelog` constant (`main.go` lines 191-204). -/
def defaultChangelog : List Char := defaultPreamble ++ defaultFirstSection

example : defaultChangelog =
    ("# Changelog\n\nAll notable changes to this project will be documented in this file.\n\nPlease choose versions by [Semantic Versioning](http://semver.org/).\n\n* MAJOR version when you make incompatible API changes,\n* MINOR version when you add functionality in a backwards-compatible manner, and\n* PATCH version when you make backwards-compatible bug fixes.\n\n## 1.0.0\n\n- Initial Version\n").data := by
  decide

/-- The first and only boundary of `defaultChangelog` sits right after the
preamble. -/
theorem findBoundary_default :
    findBoundary defaultChangelog = some (List.length defaultPreamble) := by
  decide

/-! ## Lemmas about template expansion -/

theorem takeName_snd_length (l : List Char) : (takeName l).2.length ≤ l.length := by
  induction l with
  | nil => simp [takeName]
  | cons c rest ih =>
    by_cases h : wordChar c = true
    · simp [takeName, h]
      omega
    · simp [takeName, h]

theorem extract_snd_length {l name r : List Char} (h : extract l = some (name, r)) :
    r.length ≤ l.length := by
  unfold extract at h
  by_cases hb : l.head? = some '\x7b'
  · rw [if_pos hb] at h
    by_cases h1 : (takeName l.tail).1 = []
    · simp [h1] at h
    · rw [if_neg h1] at h
      by_cases h2 : (takeName l.tail).2.head? = some '\x7d'
      · rw [if_pos h2] at h
        injection h with h
        injection h with h h'
        subst h'
        have := takeName_snd_length l.tail
        have := List.length_tail (takeName l.tail).2
        have := List.length_tail l
        omega
      · simp [h2] at h
  · rw [if_neg hb] at h
    by_cases h1 : (takeName l).1 = []
    · simp [h1] at h
    · rw [if_neg h1] at h
      injection h with h
      have h2 : (takeName l).2 = r := by rw [h]
      exact h2 ▸ takeName_snd_length l

theorem expandTCore_cons (g : Groups) (fuel : Nat) (c : Char) (rest : List Char) :
    expandTCore g (fuel + 1) (c :: rest) =
      if c = '$' then
        if rest.head? = some '$' then '$' :: expandTCore g fuel rest.tail
        else
          match extract rest with
          | none => '$' :: expandTCore g fuel rest
          | some (name, rest2) => groupFor g name ++ expandTCore g fuel rest2
      else c :: expandTCore g fuel rest := rfl

/-- The fuel argument of `expandTCore` is irrelevant once it covers the
template's length, so `expandT` is the limit of `expandTCore`. -/
theorem expandTCore_fuel (g : Groups) :
    ∀ (f1 : Nat) (t : List Char) (f2 : Nat), t.length ≤ f1 → t.length ≤ f2 →
      expandTCore g f1 t = expandTCore g f2 t := by
  intro f1
  induction f1 with
  | zero =>
    intro t f2 h1 _
    obtain rfl : t = [] := List.eq_nil_of_length_eq_zero (by omega)
    cases f2 <;> rfl
  | succ f ih =>
    intro t f2 h1 h2
    cases t with
    | nil => cases f2 <;> rfl
    | cons c rest =>
      cases f2 with
      | zero => simp at h2
      | succ f2' =>
        have hr1 : rest.length ≤ f := by simp at h1; omega
        have hr2 : rest.length ≤ f2' := by simp at h2; omega
        rw [expandTCore_cons, expandTCore_cons]
        by_cases hc : c = '$'
        · rw [if_pos hc, if_pos hc]
          by_cases hh : rest.head? = some '$'
          · rw [if_pos hh, if_pos hh]
            have ht := List.length_tail rest
            rw [ih rest.tail f2' (by omega) (by omega)]
          · rw [if_neg hh, if_neg hh]
            cases hex : extract rest with
            | none => rw [ih rest f2' hr1 hr2]
            | some p =>
              obtain ⟨name, rest2⟩ := p
              have hlen := extract_snd_length hex
              simp only
              rw [ih rest2 f2' (by omega) (by omega)]
        · rw [if_neg hc, if_neg hc, ih rest f2' hr1 hr2]

theorem expandT_cons_ne_dollar {c : Char} (hc : c ≠ '$') (g : Groups) (t : List Char) :
    expandT g (c :: t) = c :: expandT g t := by
  show expandTCore g (t.length + 1) (c :: t) = c :: expandTCore g t.length t
  rw [expandTCore_cons, if_neg hc]

/-- Characters of the template that are not `$` signs are copied verbatim by
`Regexp.expand`. -/
theorem expandT_no_dollar_append {l : List Char} (g : Groups) (t : List Char)
    (hl : ('$' : Char) ∉ l) :
    expandT g (l ++ t) = l ++ expandT g t := by
  induction l with
  | nil => simp
  | cons c l' ih =>
    have hc : c ≠ '$' := fun h => hl (h ▸ List.mem_cons_self c l')
    rw [List.cons_append, expandT_cons_ne_dollar hc, ih fun h => hl (List.mem_cons_of_mem c h),
      List.cons_append]

/-- Expansion of the replacement template `$1 <mid> $2` when the interior
`mid` starts with a newline and contains no `$` sign: group 1, then the
interior verbatim, then group 2. -/
theorem expandT_template (g : Groups) {mid : List Char}
    (hm : ('$' : Char) ∉ mid) (hh : mid.head? = some '\n') :
    expandT g ('$' :: '1' :: (mid ++ ['$', '2'])) = g.g1 ++ mid ++ g.g2 := by
  rcases mid with _ | ⟨c0, mid'⟩
  · simp at hh
  · have hc0 : c0 = '\n' := by simpa using hh
    subst hc0
    have hm' : ('$' : Char) ∉ mid' := fun h => hm (List.mem_cons_of_mem _ h)
    show g.g1 ++ expandTCore g ((mid' ++ ['$', '2']).length + 2)
      ('\n' :: (mid' ++ ['$', '2'])) = g.g1 ++ ('\n' :: mid') ++ g.g2
    have hfuel : expandTCore g ((mid' ++ ['$', '2']).length + 2)
        ('\n' :: (mid' ++ ['$', '2'])) = expandT g ('\n' :: (mid' ++ ['$', '2'])) := by
      apply expandTCore_fuel <;> simp
    rw [hfuel, expandT_cons_ne_dollar (by decide), expandT_no_dollar_append g _ hm']
    have hg2 : expandT g ['$', '2'] = g.g2 := by
      show g.g2 ++ [] = g.g2
      simp
    rw [hg2]
    simp

example : insertEntry defaultChangelog ⟨2, 0, 0⟩ ("msg").data =
    defaultPreamble ++ ("\n## 2.0.0\n\n- msg\n").data ++ defaultFirstSection := by decide

/-! ## Lemmas about decimal rendering and parsing -/

theorem natDigitsCore_fuel (n : Nat) : ∀ f, n < f → natDigitsCore f n = natDigits n := by
  induction n using Nat.strong_induction_on with
  | _ n ih =>
    intro f hf
    match f, hf with
    | f' + 1, _ =>
      by_cases h10 : n < 10
      · simp [natDigitsCore, natDigits, h10]
      · have hdiv : n / 10 < n := Nat.div_lt_self (by omega) (by omega)
        have h1 : natDigitsCore (f' + 1) n =
            natDigitsCore f' (n / 10) ++ [Char.ofNat (48 + n % 10)] := by
          simp [natDigitsCore, h10]
        have h2 : natDigits n =
            natDigitsCore n (n / 10) ++ [Char.ofNat (48 + n % 10)] := by
          simp [natDigits, natDigitsCore, h10]
        rw [h1, h2, ih (n / 10) hdiv f' (by omega), ih (n / 10) hdiv n (by omega)]

theorem natDigits_small {n : Nat} (h : n < 10) : natDigits n = [Char.ofNat (48 + n)] := by
  simp [natDigits, natDigitsCore, h]

theorem natDigits_large {n : Nat} (h : 10 ≤ n) :
    natDigits n = natDigits (n / 10) ++ [Char.ofNat (48 + n % 10)] := by
  have hn : ¬n < 10 := by omega
  have h2 : natDigits n = natDigitsCore n (n / 10) ++ [Char.ofNat (48 + n % 10)] := by
    simp [natDigits, natDigitsCore, hn]
  rw [h2, natDigitsCore_fuel (n / 10) n (Nat.div_lt_self (by omega) (by omega))]

theorem digit_ofNat_isDig : ∀ d : Fin 10, isDig (Char.ofNat (48 + d.val)) = true := by decide

theorem natDigits_all_digits (n : Nat) : ∀ c ∈ natDigits n, isDig c = true := by
  induction n using Nat.strong_induction_on with
  | _ n ih =>
    by_cases h10 : n < 10
    · rw [natDigits_small h10]
      intro c hc
      rw [List.mem_singleton] at hc
      subst hc
      exact digit_ofNat_isDig ⟨n, h10⟩
    · rw [natDigits_large (by omega)]
      intro c hc
      rcases List.mem_append.mp hc with h | h
      · exact ih (n / 10) (Nat.div_lt_self (by omega) (by omega)) c h
      · rw [List.mem_singleton] at h
        subst h
        exact digit_ofNat_isDig ⟨n % 10, Nat.mod_lt n (by omega)⟩

theorem isDig_ne_char {c : Char} (h : isDig c = true) {d : Char} (hd : d.toNat < 48) :
    c ≠ d := by
  intro heq
  subst heq
  simp [isDig] at h
  omega

theorem digitsVal_append (l : List Char) (c : Char) :
    digitsVal (l ++ [c]) = 10 * digitsVal l + (c.toNat - 48) := by
  simp [digitsVal, List.foldl_append]

theorem digitsVal_foldl_ge (l : List Char) :
    ∀ a : Nat, a ≤ l.foldl (fun a c => 10 * a + (c.toNat - 48)) a := by
  induction l with
  | nil => intro a; simp
  | cons c rest ih =>
    intro a
    have h1 := ih (10 * a + (c.toNat - 48))
    simp only [List.foldl_cons]
    omega

theorem digitsVal_head_pos {c : Char} {t : List Char} (hc : isDig c = true)
    (h0 : c.toNat ≠ 48) : 1 ≤ digitsVal (c :: t) := by
  have h1 : digitsVal (c :: t) =
      t.foldl (fun a c => 10 * a + (c.toNat - 48)) (c.toNat - 48) := by
    simp [digitsVal]
  have h2 := digitsVal_foldl_ge t (c.toNat - 48)
  simp [isDig] at hc
  omega

/-- The canonical decimal form of a natural number: nonempty, all digits, and
no leading zero unless the string is exactly `0`. -/
def canonicalDigits : List Char → Bool
  | [] => false
  | c :: rest => isDig c && rest.all isDig && (rest.isEmpty || c.toNat != 48)

/-- Rendering the value of a canonical digit string reproduces the string:
the heart of the parse/render round trip. -/
theorem natDigits_digitsVal : ∀ l : List Char, canonicalDigits l = true →
    natDigits (digitsVal l) = l := by
  intro l
  induction l using List.reverseRecOn with
  | nil => intro h; simp [canonicalDigits] at h
  | append_singleton l' c ih =>
    intro h
    rcases l' with _ | ⟨c0, t0⟩
    · simp only [List.nil_append]
      simp [canonicalDigits] at h
      have hval : digitsVal [c] = c.toNat - 48 := by simp [digitsVal]
      have hlt : c.toNat - 48 < 10 := by simp [isDig] at h; omega
      rw [hval, natDigits_small hlt]
      have h48 : 48 + (c.toNat - 48) = c.toNat := by simp [isDig] at h; omega
      rw [h48, Char.ofNat_toNat]
    · rw [List.cons_append] at h
      simp only [canonicalDigits, Bool.and_eq_true, Bool.or_eq_true] at h
      obtain ⟨⟨hdig0, hallrest⟩, hlast⟩ := h
      have hallrest' : (∀ x ∈ t0, isDig x = true) ∧ isDig c = true := by
        simpa [List.all_eq_true] using hallrest
      have hc : isDig c = true := hallrest'.2
      have hc0 : c0.toNat ≠ 48 := by
        rcases hlast with hempty | hne
        · simp [List.isEmpty_iff] at hempty
        · simpa using hne
      have hcan : canonicalDigits (c0 :: t0) = true := by
        simp only [canonicalDigits, Bool.and_eq_true, Bool.or_eq_true]
        refine ⟨⟨hdig0, ?_⟩, Or.inr (by simpa using hc0)⟩
        simp only [List.all_eq_true]
        exact hallrest'.1
      have hpos : 1 ≤ digitsVal (c0 :: t0) := digitsVal_head_pos hdig0 hc0
      have hd : c.toNat - 48 < 10 := by simp [isDig] at hc; omega
      rw [digitsVal_append]
      have hge : 10 ≤ 10 * digitsVal (c0 :: t0) + (c.toNat - 48) := by omega
      rw [natDigits_large hge]
      have hdiv : (10 * digitsVal (c0 :: t0) + (c.toNat - 48)) / 10 = digitsVal (c0 :: t0) := by
        rw [Nat.mul_add_div (by omega)]
        omega
      have hmod : (10 * digitsVal (c0 :: t0) + (c.toNat - 48)) % 10 = c.toNat - 48 := by
        rw [Nat.mul_add_mod]
        exact Nat.mod_eq_of_lt hd
      rw [hdiv, hmod, ih hcan]
      have h48 : 48 + (c.toNat - 48) = c.toNat := by simp [isDig] at hc; omega
      rw [h48, Char.ofNat_toNat]

/-! ## Lemmas about splitting and `Atoi` -/

theorem splitDot_cons (c : Char) (rest : List Char) :
    splitDot (c :: rest) =
      match splitDot rest with
      | [] => [[c]]
      | p :: ps => if c = '.' then [] :: p :: ps else (c :: p) :: ps := rfl

theorem splitDot_ne_nil (l : List Char) : splitDot l ≠ [] := by
  cases l with
  | nil => simp [splitDot]
  | cons c rest =>
    rw [splitDot_cons]
    cases h : splitDot rest with
    | nil => simp
    | cons p ps => by_cases hc : c = '.' <;> simp [hc]

theorem splitDot_no_dot {l : List Char} (h : ('.' : Char) ∉ l) : splitDot l = [l] := by
  induction l with
  | nil => rfl
  | cons c rest ih =>
    have hc : c ≠ '.' := fun he => h (he ▸ List.mem_cons_self c rest)
    have hr : splitDot rest = [rest] := ih fun hm => h (List.mem_cons_of_mem c hm)
    rw [splitDot_cons, hr]
    simp [hc]

theorem splitDot_append {a : List Char} (rest : List Char) (ha : ('.' : Char) ∉ a) :
    splitDot (a ++ '.' :: rest) = a :: splitDot rest := by
  induction a with
  | nil =>
    rw [List.nil_append, splitDot_cons]
    cases h : splitDot rest with
    | nil => exact absurd h (splitDot_ne_nil rest)
    | cons p ps => simp
  | cons c a' ih =>
    have hc : c ≠ '.' := fun he => ha (he ▸ List.mem_cons_self c a')
    have ih' := ih fun hm => ha (List.mem_cons_of_mem c hm)
    rw [List.cons_append, splitDot_cons, ih']
    simp [hc]

theorem parseUintLoop_ok : ∀ (l : List Char) (n : Nat),
    (∀ c ∈ l, isDig c = true) →
    l.foldl (fun a c => 10 * a + (c.toNat - 48)) n ≤ uint64Max →
    parseUintLoop n l = .ok (l.foldl (fun a c => 10 * a + (c.toNat - 48)) n) := by
  intro l
  induction l with
  | nil => intro n _ _; rfl
  | cons c rest ih =>
    intro n hdig hle
    have hc : isDig c = true := hdig c (List.mem_cons_self c rest)
    have hfold : (c :: rest).foldl (fun a c => 10 * a + (c.toNat - 48)) n =
        rest.foldl (fun a c => 10 * a + (c.toNat - 48)) (10 * n + (c.toNat - 48)) := rfl
    rw [hfold] at hle ⊢
    have hge := digitsVal_foldl_ge rest (10 * n + (c.toNat - 48))
    have h10 : 10 * n + (c.toNat - 48) ≤ uint64Max := le_trans hge hle
    have hn1 : ¬(10 * n + (c.toNat - 48) > uint64Max) := by omega
    have hcut : ¬(n ≥ uint64Cutoff) := by
      intro hcu
      simp only [uint64Cutoff] at hcu
      simp only [uint64Max] at h10
      omega
    unfold parseUintLoop
    rw [if_pos hc, if_neg hcut, if_neg hn1]
    exact ih (10 * n + (c.toNat - 48)) (fun x hx => hdig x (List.mem_cons_of_mem c hx)) hle

theorem parseIntResult_ok_pos {un : Nat} (h : un < int64Cutoff) :
    parseIntResult false (.ok un) = .ok (Int.ofNat un) := by
  show (if false = false ∧ un ≥ int64Cutoff then Except.error AtoiErr.errRange
      else if false = true ∧ un > int64Cutoff then Except.error AtoiErr.errRange
      else Except.ok (if false = true then -Int.ofNat un else Int.ofNat un)) =
    Except.ok (Int.ofNat un)
  rw [if_neg (by rintro ⟨-, hge⟩; omega),
    if_neg (by rintro ⟨hh, -⟩; exact absurd hh (by decide))]
  rfl

theorem atoi_digits {l : List Char} (hne : l ≠ []) (hd : l.all isDig = true)
    (hr : digitsVal l ≤ 9223372036854775807) :
    atoi l = .ok (Int.ofNat (digitsVal l)) := by
  rcases l with _ | ⟨c, rest⟩
  · simp at hne
  · simp only [List.all_cons, Bool.and_eq_true] at hd
    have h1 : c ≠ '+' := isDig_ne_char hd.1 (by decide)
    have h2 : c ≠ '-' := isDig_ne_char hd.1 (by decide)
    unfold atoi
    rw [if_neg (by simp [h1]), if_neg (by simp [h2]), if_neg (by simp)]
    have hall : ∀ x ∈ c :: rest, isDig x = true := by
      intro x hx
      rcases List.mem_cons.mp hx with rfl | hx'
      · exact hd.1
      · exact (List.all_eq_true.mp hd.2) x hx'
    have hle : (c :: rest).foldl (fun a c => 10 * a + (c.toNat - 48)) 0 ≤ uint64Max := by
      have hdv : (c :: rest).foldl (fun a c => 10 * a + (c.toNat - 48)) 0 =
          digitsVal (c :: rest) := rfl
      rw [hdv]
      simp only [uint64Max]
      omega
    have hloop : parseUintLoop 0 (c :: rest) = .ok (digitsVal (c :: rest)) :=
      parseUintLoop_ok (c :: rest) 0 hall hle
    rw [hloop]
    exact parseIntResult_ok_pos (by simp only [int64Cutoff]; omega)

theorem canonical_ne_nil {l : List Char} (h : canonicalDigits l = true) : l ≠ [] := by
  cases l with
  | nil => simp [canonicalDigits] at h
  | cons c rest => simp

theorem canonical_all_digits {l : List Char} (h : canonicalDigits l = true) :
    l.all isDig = true := by
  cases l with
  | nil => simp [canonicalDigits] at h
  | cons c rest =>
    simp only [canonicalDigits, Bool.and_eq_true] at h
    simp [List.all_cons, h.1.1, h.1.2]

theorem canonical_no_dot {l : List Char} (h : canonicalDigits l = true) :
    ('.' : Char) ∉ l := by
  intro hmem
  have hall := canonical_all_digits h
  rw [List.all_eq_true] at hall
  have := hall '.' hmem
  simp [isDig] at this

theorem intRepr_ofNat (n : Nat) : intRepr (Int.ofNat n) = natDigits n := by
  unfold intRepr
  rw [if_neg (by simp)]
  simp

/-- The parser succeeds on a dot-joined triple of canonical digit
strings whose values fit a 64-bit int, yielding their numeric values. -/
theorem ParseVersion_canonical {a b c : List Char}
    (ha : canonicalDigits a = true) (hb : canonicalDigits b = true)
    (hc : canonicalDigits c = true)
    (hra : digitsVal a ≤ 9223372036854775807) (hrb : digitsVal b ≤ 9223372036854775807)
    (hrc : digitsVal c ≤ 9223372036854775807) :
    ParseVersion (a ++ '.' :: (b ++ '.' :: c)) =
      .ok ⟨Int.ofNat (digitsVal a), Int.ofNat (digitsVal b), Int.ofNat (digitsVal c)⟩ := by
  have hsplit : splitDot (a ++ '.' :: (b ++ '.' :: c)) = [a, b, c] := by
    rw [splitDot_append _ (canonical_no_dot ha), splitDot_append _ (canonical_no_dot hb),
      splitDot_no_dot (canonical_no_dot hc)]
  unfold ParseVersion
  rw [hsplit]
  simp only [atoi_digits (canonical_ne_nil ha) (canonical_all_digits ha) hra,
    atoi_digits (canonical_ne_nil hb) (canonical_all_digits hb) hrb,
    atoi_digits (canonical_ne_nil hc) (canonical_all_digits hc) hrc]

/-- Rendering the version parsed from a canonical triple reproduces the
input string. -/
theorem versionString_of_canonical {a b c : List Char}
    (ha : canonicalDigits a = true) (hb : canonicalDigits b = true)
    (hc : canonicalDigits c = true) :
    versionString ⟨Int.ofNat (digitsVal a), Int.ofNat (digitsVal b), Int.ofNat (digitsVal c)⟩ =
      a ++ '.' :: (b ++ '.' :: c) := by
  unfold versionString
  simp only [intRepr_ofNat, natDigits_digitsVal a ha, natDigits_digitsVal b hb,
    natDigits_digitsVal c hc, List.append_assoc, List.cons_append]

/-! ## The shape of an inserted section -/

/-- The text `ReplaceAll` splices in between the two capture groups:
`"\n## " + version + "\n\n- " + message + "\n"`. -/
def sectionOf (v : Version) (msg : List Char) : List Char :=
  ("\n## ").data ++ versionString v ++ ("\n\n- ").data ++ msg ++ ['\n']

theorem template_eq (v : Version) (msg : List Char) :
    template v msg = '$' :: '1' :: (sectionOf v msg ++ ['$', '2']) := by
  simp [template, sectionOf]

theorem intRepr_chars (i : Int) : ∀ c ∈ intRepr i, isDig c = true ∨ c = '-' := by
  intro c hc
  unfold intRepr at hc
  by_cases hi : i < 0
  · rw [if_pos hi] at hc
    rcases List.mem_cons.mp hc with rfl | hc'
    · exact Or.inr rfl
    · exact Or.inl (natDigits_all_digits _ c hc')
  · rw [if_neg hi] at hc
    exact Or.inl (natDigits_all_digits _ c hc)

theorem versionString_chars (v : Version) :
    ∀ c ∈ versionString v, isDig c = true ∨ c = '-' ∨ c = '.' := by
  intro c hc
  unfold versionString at hc
  rcases List.mem_append.mp hc with h1 | h2
  · rcases List.mem_append.mp h1 with h3 | h4
    · rcases intRepr_chars v.major c h3 with h | h
      · exact Or.inl h
      · exact Or.inr (Or.inl h)
    · rcases List.mem_cons.mp h4 with rfl | h5
      · exact Or.inr (Or.inr rfl)
      · rcases intRepr_chars v.minor c h5 with h | h
        · exact Or.inl h
        · exact Or.inr (Or.inl h)
  · rcases List.mem_cons.mp h2 with rfl | h6
    · exact Or.inr (Or.inr rfl)
    · rcases intRepr_chars v.patch c h6 with h | h
      · exact Or.inl h
      · exact Or.inr (Or.inl h)

theorem versionString_no_dollar (v : Version) : ('$' : Char) ∉ versionString v := by
  intro hmem
  rcases versionString_chars v '$' hmem with h | h | h
  · simp [isDig] at h
  · exact absurd h (by decide)
  · exact absurd h (by decide)

theorem sectionOf_no_dollar (v : Version) {msg : List Char} (hm : ('$' : Char) ∉ msg) :
    ('$' : Char) ∉ sectionOf v msg := by
  intro hmem
  unfold sectionOf at hmem
  rcases List.mem_append.mp hmem with h | h
  · rcases List.mem_append.mp h with h | h
    · rcases List.mem_append.mp h with h | h
      · rcases List.mem_append.mp h with h | h
        · simp at h
        · exact versionString_no_dollar v h
      · simp at h
    · exact hm h
  · simp at h

theorem sectionOf_head (v : Version) (msg : List Char) :
    (sectionOf v msg).head? = some '\n' := rfl

/-- When the pattern matches (first boundary at index `i`) and the message
contains no `$` sign, `insertEntry` yields
`prefix ++ "\n## v\n\n- msg\n" ++ remainder` where the prefix/remainder are
the document split at `i`. -/
theorem insertEntry_split {doc : List Char} {i : Nat} (h : findBoundary doc = some i)
    (v : Version) {msg : List Char} (hm : ('$' : Char) ∉ msg) :
    insertEntry doc v msg = doc.take i ++ sectionOf v msg ++ doc.drop i := by
  unfold insertEntry
  rw [h]
  simp only
  rw [template_eq]
  rw [expandT_template _ (sectionOf_no_dollar v hm) (sectionOf_head v msg)]

/-- With no boundary anywhere, the pattern does not match and the document is
returned unchanged. -/
theorem insertEntry_unchanged {doc : List Char}
    (h : ∀ j, boundaryHead (doc.drop j) = false) (v : Version) (msg : List Char) :
    insertEntry doc v msg = doc := by
  unfold insertEntry
  rw [findBoundary_none h]

/-! ## The `App.Run` orchestration

`App.Run` (`main.go` lines 90-153) is a linear sequence of calls against the
filesystem and the go-git library.  The external world is modelled by `GitEnv`:
the outcome each external call would report during this run.  `runApp` returns
the `error` result of `Run` together with the ordered trace of side-effecting
calls it issued before returning. -/

/-- The `App` struct (`main.go` lines 63-69). -/
structure App where
  message : List Char
  version : List Char
  authorName : List Char
  authorEmail : List Char
  repo : List Char

/-- Outcomes of the external calls `App.Run` makes, in program order.  A
`GitErr` (the message of an underlying go-git / OS error) is a `List Char`.
`dirty` records whether the working tree has uncommitted changes - state the
go-git worktree exposes (via `Worktree.Status`) but which, as the theorems
below show, `Run` never consults. -/
structure GitEnv where
  /-- Process working directory: relative paths handed to `ioutil.ReadFile` /
  `ioutil.WriteFile` are resolved against it by the OS. -/
  cwd : List Char
  /-- Whether the working tree has uncommitted changes. -/
  dirty : Bool
  /-- Failure of `git.PlainOpen(a.Repo)`, if any. -/
  openErr : Option (List Char)
  /-- Failure of `r.Worktree()`, if any. -/
  worktreeErr : Option (List Char)
  /-- Result of `r.Tag(version.String())`: `none` means the lookup succeeded
  (the tag exists); `some e` means it returned error `e` of any kind. -/
  tagLookupErr : Option (List Char)
  /-- Result of `ioutil.ReadFile(changelogFilename)`: the content read, or the error. -/
  readResult : Except (List Char) (List Char)
  /-- Failure of `ioutil.WriteFile`, if any. -/
  writeErr : Option (List Char)
  /-- Failure of `w.Add(changelogFilename)`, if any. -/
  addErr : Option (List Char)
  /-- Hash returned by `w.Commit` (zero-valued when the commit failed). -/
  commitRet : Nat
  /-- Error returned by `w.Commit`, if any. -/
  commitErr : Option (List Char)
  /-- Result of `r.CommitObject(commit)`: the hash of the object, or the lookup error. -/
  commitObjRet : Except (List Char) Nat
  /-- Failure of `r.CreateTag(...)`, if any. -/
  createTagErr : Option (List Char)

/-- The side-effecting external calls `App.Run` can issue, with their
arguments. -/
inductive Event where
  | readFile (path : List Char)
  | writeFile (path : List Char) (content : List Char) (perm : Nat)
  | gitAdd (path : List Char)
  | gitCommit (message : List Char) (includeAll : Bool)
  | gitCreateTag (name : List Char) (hash : Nat) (tagMessage : List Char)
deriving DecidableEq, Repr

/-- The distinct error returns of `App.Run`, one constructor per `return`
site, each carrying the wrapped underlying error where there is one. -/
inductive RunError where
  | parseErr (e : ParseError)
  | openFailed (e : List Char)
  | worktreeFailed (e : List Char)
  | tagExists
  | writeFailed (e : List Char)
  | addFailed (e : List Char)
  | commitFailed (e : List Char)
  | createTagFailed (e : List Char)
deriving DecidableEq, Repr

/-- Rendering of a `RunError` as by Go; `errors.Wrap(err, m)` renders as
`m ++ ": " ++ err`. -/
def renderRunError : RunError → List Char
  | .parseErr e => renderParseError e
  | .openFailed e => ("open git directory failed: ").data ++ e
  | .worktreeFailed e => ("get worktree failed: ").data ++ e
  | .tagExists => ("tag already exists").data
  | .writeFailed e => ("write CHANGELOG.md failed: ").data ++ e
  | .addFailed e => ("add file failed: ").data ++ e
  | .commitFailed e => ("commit failed: ").data ++ e
  | .createTagFailed e => ("create tag failed: ").data ++ e

/-- POSIX resolution of the path argument of `ioutil.ReadFile` /
`ioutil.WriteFile`: a relative path names a file in the process working
directory. -/
def resolvePath (cwd p : List Char) : List Char :=
  if p.head? = some '/' then p else cwd ++ '/' :: p

/-- The changelog content `App.Run` operates on (`main.go` lines 112-115):
the file's content, or the default template on ANY read error. -/
def changelogOrDefault : Except (List Char) (List Char) → List Char
  | .ok content => content
  | .error _ => defaultChangelog

/-- Model of `App.Run` (`main.go` lines 90-153), step for step:
parse the version; open the repository; fetch the worktree; abort if the tag
lookup succeeds; read the changelog (any read error degrades to the default
template); splice in the new section and write the file back with permission
`0600` (= 384); stage the file; commit with `All: true` (the error returned
by `w.Commit` is dropped - `err` is immediately overwritten by the
`r.CommitObject` call at line 139); look up the commit object, wrapping a
lookup failure as "commit failed"; create the annotated tag named and
messaged by the version string. -/
def runApp (a : App) (env : GitEnv) : Except RunError Unit × List Event :=
  match ParseVersion a.version with
  | .error e => (.error (.parseErr e), [])
  | .ok version =>
    match env.openErr with
    | some e => (.error (.openFailed e), [])
    | none =>
      match env.worktreeErr with
      | some e => (.error (.worktreeFailed e), [])
      | none =>
        match env.tagLookupErr with
        | none => (.error .tagExists, [])
        | some _ =>
          match env.writeErr with
          | some e =>
            (.error (.writeFailed e),
             [Event.readFile (resolvePath env.cwd changelogFilename),
              Event.writeFile (resolvePath env.cwd changelogFilename)
                (insertEntry (changelogOrDefault env.readResult) version a.message) 384])
          | none =>
            match env.addErr with
            | some e =>
              (.error (.addFailed e),
               [Event.readFile (resolvePath env.cwd changelogFilename),
                Event.writeFile (resolvePath env.cwd changelogFilename)
                  (insertEntry (changelogOrDefault env.readResult) version a.message) 384,
                Event.gitAdd changelogFilename])
            | none =>
              match env.commitObjRet with
              | .error e =>
                (.error (.commitFailed e),
                 [Event.readFile (resolvePath env.cwd changelogFilename),
                  Event.writeFile (resolvePath env.cwd changelogFilename)
                    (insertEntry (changelogOrDefault env.readResult) version a.message) 384,
                  Event.gitAdd changelogFilename,
                  Event.gitCommit a.message true])
              | .ok h =>
                match env.createTagErr with
                | some e =>
                  (.error (.createTagFailed e),
                   [Event.readFile (resolvePath env.cwd changelogFilename),
                    Event.writeFile (resolvePath env.cwd changelogFilename)
                      (insertEntry (changelogOrDefault env.readResult) version a.message) 384,
                    Event.gitAdd changelogFilename,
                    Event.gitCommit a.message true,
                    Event.gitCreateTag (versionString version) h (versionString version)])
                | none =>
                  (.ok (),
                   [Event.readFile (resolvePath env.cwd changelogFilename),
                    Event.writeFile (resolvePath env.cwd changelogFilename)
                      (insertEntry (changelogOrDefault env.readResult) version a.message) 384,
                    Event.gitAdd changelogFilename,
                    Event.gitCommit a.message true,
                    Event.gitCreateTag (versionString version) h (versionString version)])

/-! ## The possible effect traces of a run -/

/-- Every run issues one of five call traces: nothing (aborted before the
changelog step), or read+write, extended in order by stage, commit, and tag
creation. -/
theorem runApp_trace_shape (a : App) (env : GitEnv) :
    (runApp a env).2 = [] ∨
    ∃ version, ParseVersion a.version = .ok version ∧
      ((runApp a env).2 =
        [Event.readFile (resolvePath env.cwd changelogFilename),
         Event.writeFile (resolvePath env.cwd changelogFilename)
           (insertEntry (changelogOrDefault env.readResult) version a.message) 384] ∨
       (runApp a env).2 =
        [Event.readFile (resolvePath env.cwd changelogFilename),
         Event.writeFile (resolvePath env.cwd changelogFilename)
           (insertEntry (changelogOrDefault env.readResult) version a.message) 384,
         Event.gitAdd changelogFilename] ∨
       (runApp a env).2 =
        [Event.readFile (resolvePath env.cwd changelogFilename),
         Event.writeFile (resolvePath env.cwd changelogFilename)
           (insertEntry (changelogOrDefault env.readResult) version a.message) 384,
         Event.gitAdd changelogFilename,
         Event.gitCommit a.message true] ∨
       ∃ h, (runApp a env).2 =
        [Event.readFile (resolvePath env.cwd changelogFilename),
         Event.writeFile (resolvePath env.cwd changelogFilename)
           (insertEntry (changelogOrDefault env.readResult) version a.message) 384,
         Event.gitAdd changelogFilename,
         Event.gitCommit a.message true,
         Event.gitCreateTag (versionString version) h (versionString version)]) := by
  rcases hp : ParseVersion a.version with e | version
  · left; simp [runApp, hp]
  · rcases ho : env.openErr with _ | oe
    · rcases hw : env.worktreeErr with _ | we
      · rcases ht : env.tagLookupErr with _ | te
        · left; simp [runApp, hp, ho, hw, ht]
        · rcases hwr : env.writeErr with _ | wre
          · rcases ha : env.addErr with _ | ae
            · rcases hc : env.commitObjRet with ce | hobj
              · right
                exact ⟨version, rfl,
                  Or.inr (Or.inr (Or.inl (by simp [runApp, hp, ho, hw, ht, hwr, ha, hc])))⟩
              · right
                refine ⟨version, rfl, Or.inr (Or.inr (Or.inr ⟨hobj, ?_⟩))⟩
                rcases hct : env.createTagErr with _ | cte
                · simp [runApp, hp, ho, hw, ht, hwr, ha, hc, hct]
                · simp [runApp, hp, ho, hw, ht, hwr, ha, hc, hct]
            · right
              exact ⟨version, rfl,
                Or.inr (Or.inl (by simp [runApp, hp, ho, hw, ht, hwr, ha]))⟩
          · right
            exact ⟨version, rfl, Or.inl (by simp [runApp, hp, ho, hw, ht, hwr])⟩
      · left; simp [runApp, hp, ho, hw]
    · left; simp [runApp, hp, ho]

theorem runApp_commit_events (a : App) (env : GitEnv) :
    ∀ m all, Event.gitCommit m all ∈ (runApp a env).2 → all = true ∧ m = a.message := by
  intro m all hmem
  rcases runApp_trace_shape a env with h | ⟨version, hv, hsh⟩
  · rw [h] at hmem; simp at hmem
  · rcases hsh with h | h | h | ⟨hh, h⟩
    · rw [h] at hmem; simp at hmem
    · rw [h] at hmem; simp at hmem
    · rw [h] at hmem; simp at hmem
      exact ⟨hmem.2, hmem.1⟩
    · rw [h] at hmem; simp at hmem
      exact ⟨hmem.2, hmem.1⟩

theorem runApp_write_events (a : App) (env : GitEnv) :
    ∀ p cnt pm, Event.writeFile p cnt pm ∈ (runApp a env).2 →
      p = resolvePath env.cwd changelogFilename ∧ pm = 384 := by
  intro p cnt pm hmem
  rcases runApp_trace_shape a env with h | ⟨version, hv, hsh⟩
  · rw [h] at hmem; simp at hmem
  · rcases hsh with h | h | h | ⟨hh, h⟩ <;> rw [h] at hmem <;> simp at hmem <;>
      exact ⟨hmem.1, hmem.2.2⟩

theorem runApp_read_events (a : App) (env : GitEnv) :
    ∀ p, Event.readFile p ∈ (runApp a env).2 →
      p = resolvePath env.cwd changelogFilename := by
  intro p hmem
  rcases runApp_trace_shape a env with h | ⟨version, hv, hsh⟩
  · rw [h] at hmem; simp at hmem
  · rcases hsh with h | h | h | ⟨hh, h⟩ <;> rw [h] at hmem <;> simp at hmem <;> exact hmem

/-- Bool test for a `writeFile` call. -/
def isWriteEvent : Event → Bool
  | .writeFile _ _ _ => true
  | _ => false

theorem runApp_write_count (a : App) (env : GitEnv) :
    ((runApp a env).2.filter isWriteEvent).length ≤ 1 := by
  rcases runApp_trace_shape a env with h | ⟨version, hv, hsh⟩
  · rw [h]; simp
  · rcases hsh with h | h | h | ⟨hh, h⟩ <;> rw [h] <;> simp [isWriteEvent]

/-! ## Concrete fixtures for counterexamples and witnesses -/

/-- A well-formed release request. -/
def app1 : App :=
  { message := ("msg").data, version := ("1.2.3").data, authorName := ("n").data,
    authorEmail := ("e").data, repo := ("/repo").data }

/-- An environment in which the working tree is dirty, the changelog file is
absent, and every external call succeeds. -/
def env1 : GitEnv :=
  { cwd := ("/repo").data, dirty := true, openErr := none, worktreeErr := none,
    tagLookupErr := some (("tag not found").data), readResult := .error (("no file").data),
    writeErr := none, addErr := none, commitRet := 7, commitErr := none,
    commitObjRet := .ok 7, createTagErr := none }

/-- Like `env1` but with a clean tree and a process working directory that is
NOT the directory named by the `repo` flag. -/
def env8 : GitEnv := { env1 with dirty := false, cwd := ("/other").data }

/-- Like `env1` but the commit-object lookup fails. -/
def env9 : GitEnv := { env1 with commitObjRet := .error (("boom").data) }

/-- Like `env1` but the tag lookup succeeds (the tag exists). -/
def env10 : GitEnv := { env1 with tagLookupErr := none }

/-! ## Claim C1 -/

/-- C1 counterexample: the working tree is dirty (`env1.dirty = true`), yet
the run succeeds and issues the changelog read and write, the staging, the
commit and the tag creation - it does not abort at all, let alone before
touching the changelog. -/
theorem c1_counterexample :
    env1.dirty = true ∧
    (runApp app1 env1).1 = .ok () ∧
    (runApp app1 env1).2 =
      [Event.readFile (("/repo/CHANGELOG.md").data),
       Event.writeFile (("/repo/CHANGELOG.md").data)
         (insertEntry defaultChangelog ⟨1, 2, 3⟩ (("msg").data)) 384,
       Event.gitAdd (("CHANGELOG.md").data),
       Event.gitCommit (("msg").data) true,
       Event.gitCreateTag (("1.2.3").data) 7 (("1.2.3").data)] := by
  refine ⟨rfl, by decide, by decide⟩

/-- C1 (amended): `App.Run` performs no working-tree cleanliness check: its
result and its trace of external calls are independent of whether the tree
has uncommitted changes, and every commit it issues carries the `All: true`
option (pending changes are committed along, not rejected). -/
theorem c1_no_clean_check (a : App) (env : GitEnv) (d1 d2 : Bool) :
    runApp a { env with dirty := d1 } = runApp a { env with dirty := d2 } ∧
    (∀ m all, Event.gitCommit m all ∈ (runApp a env).2 → all = true ∧ m = a.message) :=
  ⟨rfl, runApp_commit_events a env⟩

/-- Witness for C1 at a concrete dirty/clean pair of environments. -/
theorem c1_witness :
    runApp app1 { env1 with dirty := true } = runApp app1 { env1 with dirty := false } ∧
    (true = true ∧ ("msg").data = app1.message) :=
  ⟨(c1_no_clean_check app1 env1 true false).1,
   (c1_no_clean_check app1 env1 true false).2 (("msg").data) true (by decide)⟩

/-! ## Claim C8 -/

/-- C8 counterexample: with the `repo` flag set to `/repo` but the process
working directory `/other`, the successful run reads and writes
`/other/CHANGELOG.md` - not a file in the repo root `/repo`. -/
theorem c8_counterexample :
    env8.cwd = ("/other").data ∧ app1.repo = ("/repo").data ∧
    (runApp app1 env8).1 = .ok () ∧
    (runApp app1 env8).2 =
      [Event.readFile (("/other/CHANGELOG.md").data),
       Event.writeFile (("/other/CHANGELOG.md").data)
         (insertEntry defaultChangelog ⟨1, 2, 3⟩ (("msg").data)) 384,
       Event.gitAdd (("CHANGELOG.md").data),
       Event.gitCommit (("msg").data) true,
       Event.gitCreateTag (("1.2.3").data) 7 (("1.2.3").data)] ∧
    ("/other/CHANGELOG.md").data ≠ ("/repo/CHANGELOG.md").data := by
  refine ⟨rfl, rfl, by decide, by decide, by decide⟩

/-- C8 (amended): the file the run reads and rewrites in place (permission
`0600` = 384) is `CHANGELOG.md` resolved against the process working
directory (which coincides with the repo root only when the `repo` flag names
that directory); no other file is written, and at most one write occurs. -/
theorem c8_file_frame (a : App) (env : GitEnv) :
    (∀ p cnt pm, Event.writeFile p cnt pm ∈ (runApp a env).2 →
      p = resolvePath env.cwd changelogFilename ∧ pm = 384) ∧
    (∀ p, Event.readFile p ∈ (runApp a env).2 →
      p = resolvePath env.cwd changelogFilename) ∧
    ((runApp a env).2.filter isWriteEvent).length ≤ 1 :=
  ⟨runApp_write_events a env, runApp_read_events a env, runApp_write_count a env⟩

/-- Witness for C8: the write that the concrete run `(app1, env8)` performs
is at the cwd-resolved changelog path with permission 384. -/
theorem c8_witness :
    ("/other/CHANGELOG.md").data = resolvePath env8.cwd changelogFilename ∧ 384 = 384 :=
  (c8_file_frame app1 env8).1 (("/other/CHANGELOG.md").data)
    (insertEntry defaultChangelog ⟨1, 2, 3⟩ (("msg").data)) 384 (by decide)

/-! ## Claim C9 -/

/-- The conditions under which `App.Run` reaches the commit step. -/
def reachesCommit (a : App) (env : GitEnv) : Prop :=
  (∃ v, ParseVersion a.version = .ok v) ∧ env.openErr = none ∧ env.worktreeErr = none ∧
    env.tagLookupErr ≠ none ∧ env.writeErr = none ∧ env.addErr = none

/-- C9: the error returned by `w.Commit` is discarded (the run is a function
of everything except it), and the run aborts at the commit step exactly with
the commit-object lookup's error wrapped as "commit failed" - never the
original commit error. -/
theorem c9_commit_error_discarded (a : App) (env : GitEnv) (e l : List Char) :
    runApp a { env with commitErr := some e } = runApp a { env with commitErr := none } ∧
    (env.commitObjRet = .error l → reachesCommit a env →
      (runApp a env).1 = .error (.commitFailed l) ∧
      renderRunError (.commitFailed l) = ("commit failed: ").data ++ l) := by
  refine ⟨rfl, fun hobj hreach => ⟨?_, rfl⟩⟩
  obtain ⟨⟨v, hv⟩, ho, hw, ht, hwr, ha⟩ := hreach
  obtain ⟨te, hte⟩ := Option.ne_none_iff_exists'.mp ht
  simp [runApp, hv, ho, hw, hte, hwr, ha, hobj]

/-- Witness for C9 at a concrete run whose commit-object lookup fails. -/
theorem c9_witness :
    runApp app1 { env9 with commitErr := some (("x").data) } =
      runApp app1 { env9 with commitErr := none } ∧
    (runApp app1 env9).1 = .error (.commitFailed (("boom").data)) ∧
    renderRunError (.commitFailed (("boom").data)) =
      ("commit failed: ").data ++ ("boom").data :=
  ⟨(c9_commit_error_discarded app1 env9 (("x").data) (("boom").data)).1,
   (c9_commit_error_discarded app1 env9 (("x").data) (("boom").data)).2 rfl
     ⟨⟨⟨1, 2, 3⟩, by decide⟩, rfl, rfl, by decide, rfl, rfl⟩⟩

/-! ## Claim C10 -/

/-- C10: once version parsing, repository opening and worktree access have
succeeded, the run aborts with "tag already exists" exactly when the tag
lookup succeeds; which error a failed lookup returns is irrelevant (the run
is the same function for every lookup error). -/
theorem c10_tag_exists_iff (a : App) (env : GitEnv) :
    ((runApp a env).1 = .error .tagExists ↔
      (∃ v, ParseVersion a.version = .ok v) ∧ env.openErr = none ∧
        env.worktreeErr = none ∧ env.tagLookupErr = none) ∧
    (∀ e e', runApp a { env with tagLookupErr := some e } =
      runApp a { env with tagLookupErr := some e' }) ∧
    renderRunError .tagExists = ("tag already exists").data := by
  refine ⟨⟨?_, ?_⟩, fun e e' => rfl, rfl⟩
  · intro h
    rcases hp : ParseVersion a.version with pe | v
    · simp [runApp, hp] at h
    · rcases ho : env.openErr with _ | oe
      · rcases hw : env.worktreeErr with _ | we
        · rcases ht : env.tagLookupErr with _ | te
          · exact ⟨⟨v, rfl⟩, rfl, rfl, rfl⟩
          · rcases hwr : env.writeErr with _ | wre
            · rcases ha : env.addErr with _ | ae
              · rcases hc : env.commitObjRet with ce | hh
                · simp [runApp, hp, ho, hw, ht, hwr, ha, hc] at h
                · rcases hct : env.createTagErr with _ | cte
                  · simp [runApp, hp, ho, hw, ht, hwr, ha, hc, hct] at h
                  · simp [runApp, hp, ho, hw, ht, hwr, ha, hc, hct] at h
              · simp [runApp, hp, ho, hw, ht, hwr, ha] at h
            · simp [runApp, hp, ho, hw, ht, hwr] at h
        · simp [runApp, hp, ho, hw] at h
      · simp [runApp, hp, ho] at h
  · rintro ⟨⟨v, hv⟩, ho, hw, ht⟩
    simp [runApp, hv, ho, hw, ht]

/-- Witness for C10: a run with a successful tag lookup aborts with
"tag already exists", and two runs differing only in the kind of tag-lookup
error coincide. -/
theorem c10_witness :
    (runApp app1 env10).1 = .error .tagExists ∧
    runApp app1 { env1 with tagLookupErr := some (("not found").data) } =
      runApp app1 { env1 with tagLookupErr := some (("permission denied").data) } :=
  ⟨((c10_tag_exists_iff app1 env10).1).mpr ⟨⟨⟨1, 2, 3⟩, by decide⟩, rfl, rfl, rfl⟩,
   ((c10_tag_exists_iff app1 env1).2).1 (("not found").data) (("permission denied").data)⟩

/-! ## Spec-side notions used to state the original claims C2, C4, C7

These definitions follow the SPEC's wording ("a line beginning with `## `",
"contains both sections"), for comparison against the behaviour of the code's
`insertEntry`. -/

/-- Spec's wording: the text begins with `"## "` (hash, hash, space). -/
def startsWithSharpSpace (l : List Char) : Bool :=
  match l with
  | c0 :: c1 :: c2 :: _ => c0 = '#' && c1 = '#' && c2 = ' '
  | _ => false

/-- Spec's wording: position `p` of the document starts a line beginning with
`"## "` (the document start counts as a line start). -/
def sharpLineAt (doc : List Char) (p : Nat) : Bool :=
  (decide (p = 0) || (doc.drop (p - 1)).head? == some '\n') &&
    startsWithSharpSpace (doc.drop p)

/-- Spec's wording: the document contains some line beginning with `"## "`. -/
def hasSharpSpaceLine (doc : List Char) : Bool :=
  (List.range doc.length).any fun p => sharpLineAt doc p

/-- Whether `needle` occurs contiguously inside `haystack`. -/
def containsSeq (needle haystack : List Char) : Bool :=
  (List.range (haystack.length + 1)).any fun j =>
    (haystack.drop j).take needle.length == needle

/-! ## Claim C2 -/

/-- A document whose FIRST line beginning with `## ` is its very first line. -/
def c2doc : List Char := ("## a\n\n## b\n").data

/-- C2 counterexample: in `c2doc` the first line beginning with `## ` starts
at index 0, so the claimed split point is 0 with empty prefix and the whole
document as remainder; but the code splits at index 5 - the first NEWLINE
followed by `##` and whitespace - producing a document that matches splitting
at 5 and matches neither reading of splitting at 0 (the document-initial
`## ` line is not a boundary for the code). -/
theorem c2_counterexample :
    sharpLineAt c2doc 0 = true ∧
    findBoundary c2doc = some 5 ∧
    insertEntry c2doc ⟨1, 0, 0⟩ (("m").data) =
      ("## a\n\n## 1.0.0\n\n- m\n\n## b\n").data ∧
    insertEntry c2doc ⟨1, 0, 0⟩ (("m").data) ≠
      ("\n## 1.0.0\n\n- m\n").data ++ c2doc ∧
    insertEntry c2doc ⟨1, 0, 0⟩ (("m").data) ≠
      ("## 1.0.0\n\n- m\n").data ++ c2doc := by
  refine ⟨by decide, by decide, by decide, by decide, by decide⟩

/-- C2 (amended): the split point is the smallest index at which a newline is
immediately followed by `##` and a whitespace character (RE2's `\s`, i.e.
tab, LF, FF, CR or space): the prefix is everything before that newline, the
remainder begins with that newline, and no earlier index is such a boundary.
A `## ` line at the very start of the document is not a split point, and (for
a `$`-free message) the document is rebuilt around exactly this first
boundary. -/
theorem c2_split_at_first_boundary {doc : List Char} {i : Nat}
    (h : findBoundary doc = some i) (v : Version) {msg : List Char}
    (hm : ('$' : Char) ∉ msg) :
    (boundaryHead (doc.drop i) = true ∧ ∀ j, j < i → boundaryHead (doc.drop j) = false) ∧
    insertEntry doc v msg = doc.take i ++ sectionOf v msg ++ doc.drop i :=
  ⟨findBoundary_spec h, insertEntry_split h v hm⟩

/-- Witness for C2 at the concrete document `"x\n## y"` (boundary at 1). -/
theorem c2_witness :
    (boundaryHead ((("x\n## y").data).drop 1) = true ∧
      ∀ j, j < 1 → boundaryHead ((("x\n## y").data).drop j) = false) ∧
    insertEntry (("x\n## y").data) ⟨1, 2, 3⟩ (("m").data) =
      (("x\n## y").data).take 1 ++ sectionOf ⟨1, 2, 3⟩ (("m").data) ++
        (("x\n## y").data).drop 1 :=
  c2_split_at_first_boundary (by decide) ⟨1, 2, 3⟩ (by decide)

/-! ## Claim C3 -/

/-- C3 counterexample: the insertion formula fails for the message `"$2"`:
`ReplaceAll` expands the `$2` inside the message to the second capture group
(the whole tail of the document) instead of copying it literally. -/
theorem c3_counterexample :
    insertEntry defaultChangelog ⟨2, 0, 0⟩ (("$2").data) =
      defaultPreamble ++ ("\n## 2.0.0\n\n- ").data ++ defaultFirstSection ++
        ("\n").data ++ defaultFirstSection ∧
    insertEntry defaultChangelog ⟨2, 0, 0⟩ (("$2").data) ≠
      defaultPreamble ++ ("\n## 2.0.0\n\n- $2\n").data ++ defaultFirstSection := by
  refine ⟨by decide, by decide⟩

/-- C3 (amended): for every document in which the pattern matches and every
message containing no `$` sign, the updated document equals
`prefix ++ "\n## " ++ v.String() ++ "\n\n- " ++ m ++ "\n" ++ remainder`
(`prefix`/`remainder` the two capture groups); in particular inserting
version 2.0.0 with message "msg" into the default template yields exactly
`"\n## 2.0.0\n\n- msg\n"` between the preamble and the pre-existing
`## 1.0.0` section. -/
theorem c3_insert_formula {doc : List Char} {i : Nat}
    (h : findBoundary doc = some i) (v : Version) {msg : List Char}
    (hm : ('$' : Char) ∉ msg) :
    insertEntry doc v msg =
      doc.take i ++
        (("\n## ").data ++ versionString v ++ ("\n\n- ").data ++ msg ++ ['\n']) ++
        doc.drop i ∧
    insertEntry defaultChangelog ⟨2, 0, 0⟩ (("msg").data) =
      defaultPreamble ++ ("\n## 2.0.0\n\n- msg\n").data ++ defaultFirstSection :=
  ⟨insertEntry_split h v hm, by decide⟩

/-- Witness for C3 at the concrete document `"x\n## y"`. -/
theorem c3_witness :
    insertEntry (("x\n## y").data) ⟨7, 8, 9⟩ (("hello").data) =
      (("x\n## y").data).take 1 ++
        (("\n## ").data ++ versionString ⟨7, 8, 9⟩ ++ ("\n\n- ").data ++
          ("hello").data ++ ['\n']) ++ (("x\n## y").data).drop 1 ∧
    insertEntry defaultChangelog ⟨2, 0, 0⟩ (("msg").data) =
      defaultPreamble ++ ("\n## 2.0.0\n\n- msg\n").data ++ defaultFirstSection :=
  c3_insert_formula (by decide) ⟨7, 8, 9⟩ (by decide)

/-! ## Claim C4 -/

/-- C4 counterexample: `"x\n##\ty"` contains no line beginning with `"## "`
(its lines are `x` and `##<TAB>y`), yet the update step modifies it: the
regex boundary `\n##\s` also accepts a tab after `##`. -/
theorem c4_counterexample :
    hasSharpSpaceLine (("x\n##\ty").data) = false ∧
    insertEntry (("x\n##\ty").data) ⟨1, 0, 0⟩ (("m").data) ≠ ("x\n##\ty").data := by
  refine ⟨by decide, by decide⟩

/-- C4 (amended): a document containing NO occurrence of a newline followed
by `##` and a whitespace character is returned unchanged by the insertion
step. -/
theorem c4_no_boundary_unchanged {doc : List Char}
    (h : ∀ j, boundaryHead (doc.drop j) = false) (v : Version) (msg : List Char) :
    insertEntry doc v msg = doc :=
  insertEntry_unchanged h v msg

/-- Witness for C4 at the concrete document `"hello world"`. -/
theorem c4_witness :
    insertEntry (("hello world").data) ⟨9, 9, 9⟩ (("m").data) = ("hello world").data :=
  c4_no_boundary_unchanged
    (boundaryHead_drop_of_anyBoundary (by decide)) ⟨9, 9, 9⟩ (("m").data)

/-! ## Claim C7 -/

/-- C7 counterexample: inserting twice with the two different versions 1.1.0
and 1.2.0 but first message `"$2"`, the resulting document does NOT contain
the section `## 1.1.0` with its message `- $2` (the `$2` was expanded to the
document tail), so the two new sections are not both present as claimed. -/
theorem c7_counterexample :
    containsSeq (("## 1.1.0\n\n- $2\n").data)
      (insertEntry (insertEntry defaultChangelog ⟨1, 1, 0⟩ (("$2").data))
        ⟨1, 2, 0⟩ (("b").data)) = false ∧
    containsSeq (("## 1.2.0\n\n- b\n").data)
      (insertEntry (insertEntry defaultChangelog ⟨1, 1, 0⟩ (("$2").data))
        ⟨1, 2, 0⟩ (("b").data)) = true := by
  refine ⟨by decide, by decide⟩

/-- C7 (amended): applying the insertion step twice to the default template
with two different versions and `$`-free messages yields the preamble, the
second-inserted section, the first-inserted section, and the untouched
original `## 1.0.0` section, in that order (newest first). -/
theorem c7_double_insert {v1 v2 : Version} {m1 m2 : List Char}
    (_hv : v1 ≠ v2) (h1 : ('$' : Char) ∉ m1) (h2 : ('$' : Char) ∉ m2) :
    insertEntry (insertEntry defaultChangelog v1 m1) v2 m2 =
      defaultPreamble ++ sectionOf v2 m2 ++ sectionOf v1 m1 ++ defaultFirstSection := by
  have hstep1 : insertEntry defaultChangelog v1 m1 =
      defaultPreamble ++ (sectionOf v1 m1 ++ defaultFirstSection) := by
    rw [insertEntry_split findBoundary_default v1 h1]
    show defaultChangelog.take defaultPreamble.length ++ _ ++
      defaultChangelog.drop defaultPreamble.length = _
    rw [defaultChangelog, List.take_left, List.drop_left]
    simp [List.append_assoc]
  have hbX : boundaryHead (sectionOf v1 m1 ++ defaultFirstSection) = true := rfl
  have htake4 : (sectionOf v1 m1 ++ defaultFirstSection).take 4 =
      ['\n', '#', '#', ' '] := rfl
  have hfind : findBoundary (defaultPreamble ++ (sectionOf v1 m1 ++ defaultFirstSection)) =
      some defaultPreamble.length := by
    apply findBoundary_append _ hbX
    rw [htake4]
    decide
  rw [hstep1, insertEntry_split hfind v2 h2, List.take_left, List.drop_left]
  simp [List.append_assoc]

/-- Witness for C7 at versions 1.1.0 / 1.2.0 with messages "a" / "b". -/
theorem c7_witness :
    insertEntry (insertEntry defaultChangelog ⟨1, 1, 0⟩ (("a").data)) ⟨1, 2, 0⟩ (("b").data) =
      defaultPreamble ++ sectionOf ⟨1, 2, 0⟩ (("b").data) ++
        sectionOf ⟨1, 1, 0⟩ (("a").data) ++ defaultFirstSection :=
  c7_double_insert (by decide) (by decide) (by decide)

/-! ## Claim C5 -/

/-- C5 counterexample: `"9999999999999999999"` is a canonical base-10
integer (19 digits, no leading zero, no sign), but its value exceeds the
64-bit int maximum 9223372036854775807, so parsing
`"9999999999999999999.0.0"` does not succeed - `strconv.Atoi` reports a
range error on the first part and the round trip never happens. -/
theorem c5_counterexample :
    canonicalDigits (("9999999999999999999").data) = true ∧
    9223372036854775807 < digitsVal (("9999999999999999999").data) ∧
    ParseVersion (("9999999999999999999.0.0").data) =
      .error (.atoiError (("9999999999999999999").data) .errRange) ∧
    renderParseError (.atoiError (("9999999999999999999").data) .errRange) =
      ("strconv.Atoi: parsing \"9999999999999999999\": value out of range").data := by
  refine ⟨by decide, by decide, by decide, by decide⟩

/-- C5 (amended): for canonical digit strings `a`, `b`, `c` (nonempty, all
decimal digits, no leading zero, no sign) whose values are at most the 64-bit
int maximum 9223372036854775807, parsing `a.b.c` succeeds with the three
numeric values and rendering the resulting `Version` with `String()` returns
exactly the original string. -/
theorem c5_parse_render_roundtrip {a b c : List Char}
    (ha : canonicalDigits a = true) (hb : canonicalDigits b = true)
    (hc : canonicalDigits c = true)
    (hra : digitsVal a ≤ 9223372036854775807) (hrb : digitsVal b ≤ 9223372036854775807)
    (hrc : digitsVal c ≤ 9223372036854775807) :
    ParseVersion (a ++ '.' :: (b ++ '.' :: c)) =
      .ok ⟨Int.ofNat (digitsVal a), Int.ofNat (digitsVal b), Int.ofNat (digitsVal c)⟩ ∧
    versionString ⟨Int.ofNat (digitsVal a), Int.ofNat (digitsVal b), Int.ofNat (digitsVal c)⟩ =
      a ++ '.' :: (b ++ '.' :: c) :=
  ⟨ParseVersion_canonical ha hb hc hra hrb hrc, versionString_of_canonical ha hb hc⟩

/-- Witness for C5 at the concrete input `"10.0.3"`. -/
theorem c5_witness :
    ParseVersion (("10").data ++ '.' :: (("0").data ++ '.' :: ("3").data)) =
      .ok ⟨Int.ofNat (digitsVal ("10").data), Int.ofNat (digitsVal ("0").data),
        Int.ofNat (digitsVal ("3").data)⟩ ∧
    versionString ⟨Int.ofNat (digitsVal ("10").data), Int.ofNat (digitsVal ("0").data),
        Int.ofNat (digitsVal ("3").data)⟩ =
      ("10").data ++ '.' :: (("0").data ++ '.' :: ("3").data) :=
  c5_parse_render_roundtrip (by decide) (by decide) (by decide)
    (by decide) (by decide) (by decide)

/-! ## Claim C6 -/

/-- C6 counterexample: the parser fails on `"1.2"` as claimed, but its error
message is `"expect version in format 1.2.3"`, not the claimed
`"expected version in format 1.2.3"`; and "it succeeds otherwise" is also
false: `"99999999999999999999"` IS a base-10 integer (20 canonical digits),
yet parsing fails with `strconv.Atoi`'s range error. -/
theorem c6_counterexample :
    ParseVersion (("1.2").data) = .error .formatError ∧
    renderParseError .formatError = ("expect version in format 1.2.3").data ∧
    renderParseError .formatError ≠ ("expected version in format 1.2.3").data ∧
    canonicalDigits (("99999999999999999999").data) = true ∧
    ParseVersion (("0.0.99999999999999999999").data) =
      .error (.atoiError (("99999999999999999999").data) .errRange) := by
  refine ⟨by decide, by decide, by decide, by decide, by decide⟩

/-- C6 (amended): version parsing fails with the error rendered
`"expect version in format 1.2.3"` for every input that does not split on
`.` into exactly 3 parts; otherwise it propagates the `strconv.Atoi` failure
of the first failing part - `ErrSyntax` for a part that is not a base-10
integer, `ErrRange` for an integer part outside the 64-bit int range - and
succeeds exactly when `Atoi` accepts all three parts. -/
theorem c6_parse_failure_modes (s : List Char) :
    ((splitDot s).length ≠ 3 →
      ParseVersion s = .error .formatError ∧
      renderParseError .formatError = ("expect version in format 1.2.3").data) ∧
    (∀ p0 p1 p2, splitDot s = [p0, p1, p2] →
      (∀ e, atoi p0 = .error e → ParseVersion s = .error (.atoiError p0 e)) ∧
      (∀ x0 e, atoi p0 = .ok x0 → atoi p1 = .error e →
        ParseVersion s = .error (.atoiError p1 e)) ∧
      (∀ x0 x1 e, atoi p0 = .ok x0 → atoi p1 = .ok x1 → atoi p2 = .error e →
        ParseVersion s = .error (.atoiError p2 e)) ∧
      (∀ x0 x1 x2, atoi p0 = .ok x0 → atoi p1 = .ok x1 → atoi p2 = .ok x2 →
        ParseVersion s = .ok ⟨x0, x1, x2⟩)) := by
  constructor
  · intro hlen
    refine ⟨?_, by decide⟩
    rcases hs : splitDot s with _ | ⟨p0, _ | ⟨p1, _ | ⟨p2, _ | ⟨p3, t3⟩⟩⟩⟩
    · exact absurd hs (splitDot_ne_nil s)
    · unfold ParseVersion; rw [hs]
    · unfold ParseVersion; rw [hs]
    · rw [hs] at hlen; simp at hlen
    · unfold ParseVersion; rw [hs]
  · intro p0 p1 p2 hs
    refine ⟨?_, ?_, ?_, ?_⟩
    · intro e h0
      unfold ParseVersion; rw [hs]; simp [h0]
    · intro x0 e h0 h1
      unfold ParseVersion; rw [hs]; simp [h0, h1]
    · intro x0 x1 e h0 h1 h2
      unfold ParseVersion; rw [hs]; simp [h0, h1, h2]
    · intro x0 x1 x2 h0 h1 h2
      unfold ParseVersion; rw [hs]; simp [h0, h1, h2]

/-- Witness for C6: the 3-part failure, a syntax failure and a range failure,
each at a concrete input. -/
theorem c6_witness :
    (ParseVersion (("1.2").data) = .error .formatError ∧
      renderParseError .formatError = ("expect version in format 1.2.3").data) ∧
    ParseVersion (("1.x.3").data) = .error (.atoiError (("x").data) .errSyn) ∧
    ParseVersion (("1.2.9999999999999999999").data) =
      .error (.atoiError (("9999999999999999999").data) .errRange) := by
  refine ⟨(c6_parse_failure_modes (("1.2").data)).1 (by decide), ?_, ?_⟩
  · exact ((c6_parse_failure_modes (("1.x.3").data)).2 (("1").data) (("x").data) (("3").data)
      (by decide)).2.1 1 .errSyn (by decide) (by decide)
  · exact ((c6_parse_failure_modes (("1.2.9999999999999999999").data)).2 (("1").data)
      (("2").data) (("9999999999999999999").data) (by decide)).2.2.1 1 2 .errRange
      (by decide) (by decide) (by decide)

end GitVersionBumper
